import Mathlib

/-!
Verification of the kakarot AEC native module (src/native/kakarot-aec/src/lib.rs).

The module wraps an external fixed-frame echo canceller (aec-rs) behind a
streaming API: a bounded reference ring buffer, a frame scheduler that slices
arbitrary-length input into `frame_size` windows, a 16-bit little-endian
byte codec, and two metrics counters.

Modelling conventions:
- `Sample` is modelled as `Int` (the Rust `i16`); the codec theorems carry the
  signed 16-bit range explicitly where it matters.
- Bytes are modelled as `Nat` (the Rust `u8`); decoding reduces them mod 256
  as the `u8` type does by construction.
- The external canceller (`Aec::cancel_echo`) is a black box: it is modelled
  as an arbitrary state-passing function `σ → List Int → List Int → σ × List Int`
  whose output window has length `frame_size` (the §6 contract of the spec).
- Wall-clock time is nondeterministic: the elapsed microseconds of each
  `process` call are an explicit parameter. The `u64` counters are modelled
  as `Nat` (wraparound after 2^64 operations is outside the model).
- Fallible construction returns `Except String`; all other operations are
  total functions, mirroring the Rust code in which only `AecProcessor::new`
  returns `Result::Err`.
-/

namespace Kakarot

/-- Decode two little-endian bytes into a signed 16-bit sample, as
`i16::from_le_bytes([b0, b1])` does. Bytes are reduced mod 256 (they are `u8`
in the source). -/
def i16FromLeBytes (b0 b1 : Nat) : Int :=
  let u : Nat := b0 % 256 + 256 * (b1 % 256)
  if u < 32768 then (u : Int) else (u : Int) - 65536

/-- Decode a byte buffer into samples: consecutive little-endian 16-bit pairs,
`bytes.chunks_exact(2)` in the source — a trailing odd byte is dropped. -/
def bytesToSamples : List Nat → List Int
  | b0 :: b1 :: rest => i16FromLeBytes b0 b1 :: bytesToSamples rest
  | _ => []

/-- Encode one sample as its two little-endian bytes, as `i16::to_le_bytes`
does: the sample is reinterpreted as a `u16` (two-complement form) and split. -/
def i16ToLeBytes (s : Int) : List Nat :=
  let u : Nat := (s % 65536).toNat
  [u % 256, u / 256]

/-- Encode a sample sequence as bytes, two per sample (the encode loop of the
host-facing `process` function in the source). -/
def samplesToBytes : List Int → List Nat
  | [] => []
  | s :: rest => i16ToLeBytes s ++ samplesToBytes rest

/-- State of `AecProcessor` (the Rust struct). `σ` is the opaque state of the
external canceller held in the `aec` field. -/
structure AecProcessor (σ : Type) where
  aec : σ
  frame_size : Nat
  ref_buffer : List Int
  max_ref_size : Nat
  total_frames : Nat
  processing_time_us : Nat
  deriving Repr, DecidableEq

/-- A canceller capability: state, near-end frame, reference frame in;
new state and cleaned frame out (`Aec::cancel_echo` with its internal state
made explicit). -/
def Canceller (σ : Type) : Type :=
  σ → List Int → List Int → σ × List Int

/-- Constructor `AecProcessor::new`: validates the configuration and builds the initial
state. `aec0` stands for the freshly constructed external canceller state
(`Aec::new(&config)`); `sample_rate` is passed to the canceller only and is
never validated. -/
def AecProcessor.new (σ : Type) (aec0 : σ) (sample_rate : Nat)
    (frame_size filter_length : Nat) : Except String (AecProcessor σ) :=
  if frame_size = 0 ∨ frame_size > 16384 then
    Except.error ("Invalid frame size: " ++ toString frame_size)
  else if filter_length < 64 ∨ filter_length > 2048 then
    Except.error ("Invalid filter length: " ++ toString filter_length)
  else
    Except.ok
      { aec := aec0
        frame_size := frame_size
        ref_buffer := []
        max_ref_size := filter_length * 4
        total_frames := 0
        processing_time_us := 0 }

/-- Method `AecProcessor::feed_reference`: append the samples, then if the buffer
length exceeds `max_ref_size`, drain `len - max_ref_size / 2` samples from the
front. -/
def AecProcessor.feed_reference (p : AecProcessor σ) (samples : List Int) :
    AecProcessor σ :=
  let buf := p.ref_buffer ++ samples
  if p.max_ref_size < buf.length then
    let drain_count := buf.length - p.max_ref_size / 2
    { p with ref_buffer := buf.drop drain_count }
  else
    { p with ref_buffer := buf }

/-- The reference-extraction step at the top of `AecProcessor::process`:
if the buffer holds at least `n` samples, drain the `n` oldest ones and return
them together with the shrunk buffer; otherwise return `n` zeros and leave the
buffer untouched. First component: the reference samples used; second: the
buffer afterwards. -/
def refDrain (buf : List Int) (n : Nat) : List Int × List Int :=
  if n ≤ buf.length then (buf.take n, buf.drop n)
  else (List.replicate n 0, buf)

/-- The frame loop of `AecProcessor::process`: walk the input in
`frame`-sized windows, feeding each (near-end window, reference window) pair
to the canceller; whatever trailing samples remain (fewer than `frame`) are
returned verbatim. Returns the final canceller state and the output sequence.
The `0 < frame` guard matches the configuration invariant (`frame_size ≥ 1`);
with it the Rust loop terminates, and so does this recursion. -/
def processChunks (cancel : Canceller σ) (frame : Nat) (s : σ)
    (input refs : List Int) : σ × List Int :=
  if h : 0 < frame ∧ frame ≤ input.length then
    let c := cancel s (input.take frame) (refs.take frame)
    let r := processChunks cancel frame c.1 (input.drop frame) (refs.drop frame)
    (r.1, c.2 ++ r.2)
  else
    (s, input)
termination_by input.length
decreasing_by
  simp only [List.length_drop]
  omega

/-- Method `AecProcessor::process`: drain (or zero-fill) a reference as long as the input, run the frame loop, then bump the metrics. `elapsed_us` is the
measured wall-clock duration of the call, an input of the model. Returns the
updated processor and the output samples. -/
def AecProcessor.process (cancel : Canceller σ) (elapsed_us : Nat)
    (p : AecProcessor σ) (input : List Int) : AecProcessor σ × List Int :=
  let rd := refDrain p.ref_buffer input.length
  let pc := processChunks cancel p.frame_size p.aec input rd.1
  ({ p with
      aec := pc.1
      ref_buffer := rd.2
      total_frames := p.total_frames + 1
      processing_time_us := p.processing_time_us + elapsed_us }, pc.2)

/-- Method `AecProcessor::reset`: clear the reference buffer and zero both counters.
The canceller state `aec` is deliberately left untouched, as in the source. -/
def AecProcessor.reset (p : AecProcessor σ) : AecProcessor σ :=
  { p with ref_buffer := [], total_frames := 0, processing_time_us := 0 }

/-- Method `AecProcessor::get_metrics`: snapshot of the two counters. -/
def AecProcessor.get_metrics (p : AecProcessor σ) : Nat × Nat :=
  (p.total_frames, p.processing_time_us)

/-- The host-facing `process` function: decode the byte buffer, run
`AecProcessor::process`, encode the result. -/
def hostProcess (cancel : Canceller σ) (elapsed_us : Nat)
    (p : AecProcessor σ) (bytes : List Nat) : AecProcessor σ × List Nat :=
  let input := bytesToSamples bytes
  let r := AecProcessor.process cancel elapsed_us p input
  (r.1, samplesToBytes r.2)

/-- One mutating call on a session: `feedReference`, `process` (with its
canceller, measured duration and decoded input) or `reset`. -/
inductive AecOp (σ : Type) where
  | feed (samples : List Int)
  | proc (cancel : Canceller σ) (elapsed_us : Nat) (input : List Int)
  | reset

/-- Apply one mutating call to the session state. -/
def runOp (p : AecProcessor σ) : AecOp σ → AecProcessor σ
  | AecOp.feed samples => p.feed_reference samples
  | AecOp.proc cancel e input => (AecProcessor.process cancel e p input).1
  | AecOp.reset => p.reset

/-- Apply a sequence of mutating calls, oldest first. -/
def runOps (p : AecProcessor σ) (ops : List (AecOp σ)) : AecProcessor σ :=
  ops.foldl runOp p

/-- Apply a sequence of `process` calls, each given as (canceller, elapsed
microseconds, input), oldest first, keeping only the evolving state. -/
def runProcs (p : AecProcessor σ) (calls : List (Canceller σ × Nat × List Int)) :
    AecProcessor σ :=
  calls.foldl (fun q c => (AecProcessor.process c.1 c.2.1 q c.2.2).1) p

/-- A trivial canceller used to instantiate witnesses: ignores its inputs and
returns a zero frame of the given length. -/
def zeroCancel (frame : Nat) : Canceller Unit :=
  fun _ _ _ => ((), List.replicate frame 0)

/-- A concrete session state used in witnesses: frame size 2, empty reference
buffer, capacity 256 (filter length 64). -/
def demoEmpty : AecProcessor Unit :=
  { aec := ()
    frame_size := 2
    ref_buffer := []
    max_ref_size := 256
    total_frames := 0
    processing_time_us := 0 }

/-- A concrete session state with some reference audio buffered. -/
def demoFilled : AecProcessor Unit :=
  { aec := ()
    frame_size := 2
    ref_buffer := [1, 2, 3, 4, 5, 6]
    max_ref_size := 256
    total_frames := 3
    processing_time_us := 40 }

/-- Unfolding lemma for `processChunks` when fewer than `frame` samples remain:
the loop exits and the remainder is returned verbatim. -/
theorem processChunks_of_lt (cancel : Canceller σ) {frame : Nat} (s : σ)
    {input : List Int} (refs : List Int) (h : input.length < frame) :
    processChunks cancel frame s input refs = (s, input) := by
  rw [processChunks, dif_neg]
  omega

/-- Unfolding lemma for `processChunks` when a full frame remains: the
canceller handles the first window and the loop continues on the rest. -/
theorem processChunks_of_le (cancel : Canceller σ) {frame : Nat} (s : σ)
    {input : List Int} (refs : List Int) (hf : 0 < frame)
    (h : frame ≤ input.length) :
    processChunks cancel frame s input refs =
      ((processChunks cancel frame (cancel s (input.take frame) (refs.take frame)).1
          (input.drop frame) (refs.drop frame)).1,
        (cancel s (input.take frame) (refs.take frame)).2 ++
          (processChunks cancel frame (cancel s (input.take frame) (refs.take frame)).1
            (input.drop frame) (refs.drop frame)).2) := by
  rw [processChunks, dif_pos ⟨hf, h⟩]

/-- The frame loop preserves length: the output sequence is exactly as long as
the input (fuel-indexed auxiliary form). -/
theorem processChunks_length_aux (cancel : Canceller σ) {frame : Nat}
    (hf : 0 < frame) (hlen : ∀ s a b, ((cancel s a b).2).length = frame) :
    ∀ (n : Nat) (s : σ) (input refs : List Int), input.length ≤ n →
      ((processChunks cancel frame s input refs).2).length = input.length := by
  intro n
  induction n with
  | zero =>
    intro s input refs hn
    rw [processChunks_of_lt cancel s refs (by omega)]
  | succ m ih =>
    intro s input refs hn
    by_cases hle : frame ≤ input.length
    · rw [processChunks_of_le cancel s refs hf hle]
      have hrec := ih (cancel s (input.take frame) (refs.take frame)).1
        (input.drop frame) (refs.drop frame) (by simp; omega)
      simp only [List.length_append, hlen, hrec, List.length_drop]
      omega
    · rw [processChunks_of_lt cancel s refs (by omega)]

/-- The frame loop preserves length: the output sequence is exactly as long as
the input. -/
theorem processChunks_length (cancel : Canceller σ) {frame : Nat}
    (hf : 0 < frame) (hlen : ∀ s a b, ((cancel s a b).2).length = frame)
    (s : σ) (input refs : List Int) :
    ((processChunks cancel frame s input refs).2).length = input.length :=
  processChunks_length_aux cancel hf hlen input.length s input refs le_rfl

/-- Past the last full frame, the output of the frame loop is the input, verbatim:
dropping the cancelled part (`frame * (L / frame)` samples) of both sides
leaves equal remainders. -/
theorem processChunks_remainder_aux (cancel : Canceller σ) {frame : Nat}
    (hf : 0 < frame) (hlen : ∀ s a b, ((cancel s a b).2).length = frame) :
    ∀ (n : Nat) (s : σ) (input refs : List Int), input.length ≤ n →
      ((processChunks cancel frame s input refs).2).drop
          (frame * (input.length / frame))
        = input.drop (frame * (input.length / frame)) := by
  intro n
  induction n with
  | zero =>
    intro s input refs hn
    rw [processChunks_of_lt cancel s refs (by omega)]
  | succ m ih =>
    intro s input refs hn
    by_cases hle : frame ≤ input.length
    · rw [processChunks_of_le cancel s refs hf hle]
      have hq : input.length / frame = (input.length - frame) / frame + 1 :=
        Nat.div_eq_sub_div hf hle
      have hdl : (input.drop frame).length = input.length - frame := by simp
      have hrec := ih (cancel s (input.take frame) (refs.take frame)).1
        (input.drop frame) (refs.drop frame) (by omega)
      rw [hdl] at hrec
      have hfl : ((cancel s (input.take frame) (refs.take frame)).2).length = frame :=
        hlen _ _ _
      have hsplit : frame * (input.length / frame)
          = ((cancel s (input.take frame) (refs.take frame)).2).length
            + frame * ((input.length - frame) / frame) := by
        rw [hfl, hq]; ring
      rw [hsplit, List.drop_append, hrec, List.drop_drop]
      congr 1
      omega
    · rw [processChunks_of_lt cancel s refs (by omega)]

/-- The canceller state reached after the first `k` frame windows of the loop:
`stateAfter … 0 = s`, and each step advances by one canceller invocation on
the next window. -/
def stateAfter (cancel : Canceller σ) (frame : Nat) :
    σ → List Int → List Int → Nat → σ
  | s, _, _, 0 => s
  | s, input, refs, k + 1 =>
    stateAfter cancel frame (cancel s (input.take frame) (refs.take frame)).1
      (input.drop frame) (refs.drop frame) k

/-- Window `k` of the output of the frame loop (samples `[frame*k, frame*(k+1))`)
is exactly the canceller output on window `k` of the input and reference,
invoked at the state reached after the previous `k` windows. -/
theorem processChunks_window (cancel : Canceller σ) {frame : Nat}
    (hf : 0 < frame) (hlen : ∀ s a b, ((cancel s a b).2).length = frame) :
    ∀ (k : Nat) (s : σ) (input refs : List Int),
      frame * (k + 1) ≤ input.length →
      (((processChunks cancel frame s input refs).2).drop (frame * k)).take frame
        = (cancel (stateAfter cancel frame s input refs k)
            ((input.drop (frame * k)).take frame)
            ((refs.drop (frame * k)).take frame)).2 := by
  intro k
  induction k with
  | zero =>
    intro s input refs hk
    have hle : frame ≤ input.length := by omega
    rw [processChunks_of_le cancel s refs hf hle]
    simp only [Nat.mul_zero, List.drop_zero, stateAfter]
    exact List.take_left' (hlen _ _ _)
  | succ k ih =>
    intro s input refs hk
    have hexp : frame * (k + 1 + 1) = frame * (k + 1) + frame := by ring
    have hle : frame ≤ input.length := by omega
    rw [processChunks_of_le cancel s refs hf hle]
    have hfl : ((cancel s (input.take frame) (refs.take frame)).2).length = frame :=
      hlen _ _ _
    have hsplit : frame * (k + 1)
        = ((cancel s (input.take frame) (refs.take frame)).2).length + frame * k := by
      rw [hfl]; ring
    rw [hsplit, List.drop_append]
    have hrec := ih (cancel s (input.take frame) (refs.take frame)).1
      (input.drop frame) (refs.drop frame)
      (by simp only [List.length_drop]; omega)
    rw [hrec]
    simp only [stateAfter, List.drop_drop]
    rw [hfl]

/-- When the buffer holds at least `n` samples, `refDrain` takes the `n`
oldest and drops them from the buffer. -/
theorem refDrain_of_le (buf : List Int) (n : Nat) (h : n ≤ buf.length) :
    refDrain buf n = (buf.take n, buf.drop n) := by
  unfold refDrain
  rw [if_pos h]

/-- When the buffer holds fewer than `n` samples, `refDrain` yields `n` zeros
and leaves the buffer untouched. -/
theorem refDrain_of_lt (buf : List Int) (n : Nat) (h : buf.length < n) :
    refDrain buf n = (List.replicate n 0, buf) := by
  unfold refDrain
  rw [if_neg (by omega)]

/-- Decoding yields one sample per full byte pair: `L / 2` samples from `L`
bytes, the trailing odd byte contributing nothing. -/
theorem bytesToSamples_length : ∀ l : List Nat,
    (bytesToSamples l).length = l.length / 2
  | [] => rfl
  | [_] => by simp [bytesToSamples]
  | _ :: _ :: rest => by
    simp only [bytesToSamples, List.length_cons, bytesToSamples_length rest]
    omega

/-- Encoding yields exactly two bytes per sample. -/
theorem samplesToBytes_length : ∀ s : List Int,
    (samplesToBytes s).length = 2 * s.length
  | [] => rfl
  | _ :: rest => by
    simp only [samplesToBytes, i16ToLeBytes, List.cons_append, List.nil_append,
      List.length_cons, samplesToBytes_length rest]
    omega

/-- Decoding the two little-endian bytes of a signed 16-bit sample recovers
the sample. -/
theorem i16_roundtrip (x : Int) (h1 : -32768 ≤ x) (h2 : x < 32768) :
    i16FromLeBytes ((x % 65536).toNat % 256) ((x % 65536).toNat / 256) = x := by
  simp only [i16FromLeBytes]
  split <;> omega

/-- Round-trip of the codec on in-range sample sequences. -/
theorem codec_roundtrip_list : ∀ s : List Int,
    (∀ x ∈ s, -32768 ≤ x ∧ x < 32768) →
    bytesToSamples (samplesToBytes s) = s
  | [], _ => rfl
  | x :: rest, h => by
    have hx := h x (by simp)
    have hrest := codec_roundtrip_list rest (fun y hy => h y (by simp [hy]))
    simp [samplesToBytes, i16ToLeBytes, bytesToSamples, hrest,
      i16_roundtrip x hx.1 hx.2]

/-- C6: for every sequence `s` of signed 16-bit samples,
`decode(encode(s)) = s`, and the encoding always occupies exactly
`2 × s.length` bytes (little-endian pairs). -/
theorem aec_codec_roundtrip (s : List Int)
    (hs : ∀ x ∈ s, -32768 ≤ x ∧ x < 32768) :
    bytesToSamples (samplesToBytes s) = s ∧
      (samplesToBytes s).length = 2 * s.length :=
  ⟨codec_roundtrip_list s hs, samplesToBytes_length s⟩

/-- Witness for C6 at the concrete sequence `[100, -5, 32767, -32768]`. -/
theorem aec_codec_roundtrip_witness :
    bytesToSamples (samplesToBytes [100, -5, 32767, -32768])
        = [100, -5, 32767, -32768] ∧
      (samplesToBytes [100, -5, 32767, -32768]).length
        = 2 * ([100, -5, 32767, -32768] : List Int).length :=
  aec_codec_roundtrip [100, -5, 32767, -32768] (by decide)

/-- C2: if appending the fed samples pushes the reference buffer past
`max_ref_size`, `feed_reference` drops exactly enough of the oldest samples
that precisely `max_ref_size / 2` remain (the retained part is a suffix of
the appended buffer, so only the front is evicted); if the appended buffer
does not exceed `max_ref_size`, nothing is evicted. -/
theorem feed_reference_eviction (p : AecProcessor σ) (samples : List Int) :
    (p.max_ref_size < (p.ref_buffer ++ samples).length →
      (p.feed_reference samples).ref_buffer
          = (p.ref_buffer ++ samples).drop
              ((p.ref_buffer ++ samples).length - p.max_ref_size / 2) ∧
        (p.feed_reference samples).ref_buffer.length = p.max_ref_size / 2) ∧
    ((p.ref_buffer ++ samples).length ≤ p.max_ref_size →
      (p.feed_reference samples).ref_buffer = p.ref_buffer ++ samples) := by
  constructor
  · intro h
    constructor
    · simp only [AecProcessor.feed_reference, if_pos h]
    · simp only [AecProcessor.feed_reference, if_pos h, List.length_drop]
      omega
  · intro h
    simp only [AecProcessor.feed_reference,
      if_neg (by omega : ¬ p.max_ref_size < (p.ref_buffer ++ samples).length)]

/-- Witness for C2: feeding 300 samples into an empty buffer of capacity 256
triggers eviction down to exactly 128 = 256 / 2; feeding 10 evicts nothing. -/
theorem feed_reference_eviction_witness :
    ((demoEmpty.feed_reference (List.replicate 300 1)).ref_buffer
        = (demoEmpty.ref_buffer ++ List.replicate 300 1).drop
            ((demoEmpty.ref_buffer ++ List.replicate 300 1).length
              - demoEmpty.max_ref_size / 2) ∧
      (demoEmpty.feed_reference (List.replicate 300 1)).ref_buffer.length
        = demoEmpty.max_ref_size / 2) ∧
    (demoEmpty.feed_reference (List.replicate 10 1)).ref_buffer
      = demoEmpty.ref_buffer ++ List.replicate 10 1 :=
  ⟨(feed_reference_eviction demoEmpty (List.replicate 300 1)).1
      (by simp only [demoEmpty, List.nil_append, List.length_replicate]; omega),
    (feed_reference_eviction demoEmpty (List.replicate 10 1)).2
      (by simp only [demoEmpty, List.nil_append, List.length_replicate]; omega)⟩

/-- Successful construction determines every field of the state and implies
that both configuration checks passed. -/
theorem new_ok_fields (σ : Type) (aec0 : σ) (sample_rate fs fl : Nat)
    (p : AecProcessor σ)
    (h : AecProcessor.new σ aec0 sample_rate fs fl = Except.ok p) :
    p = { aec := aec0, frame_size := fs, ref_buffer := [],
          max_ref_size := fl * 4, total_frames := 0, processing_time_us := 0 } ∧
      ¬(fs = 0 ∨ fs > 16384) ∧ ¬(fl < 64 ∨ fl > 2048) := by
  unfold AecProcessor.new at h
  split at h
  · exact absurd h (by simp)
  · split at h
    · exact absurd h (by simp)
    · refine ⟨?_, by assumption, by assumption⟩
      cases h
      rfl

/-- C5: construction succeeds if and only if `frame_size ∈ [1, 16384]` and
`filter_length ∈ [64, 2048]` — failures are exactly the invalid-configuration
cases, and `sample_rate` is never checked; on success the reference buffer is
empty with ceiling `filter_length * 4` and both metrics counters are zero.
(All operations other than `new` are total functions in this development, as
in the source: only `AecProcessor::new` can return an error.) -/
theorem new_validates_config (σ : Type) (aec0 : σ) (sample_rate fs fl : Nat) :
    ((∃ p, AecProcessor.new σ aec0 sample_rate fs fl = Except.ok p) ↔
      (1 ≤ fs ∧ fs ≤ 16384 ∧ 64 ≤ fl ∧ fl ≤ 2048)) ∧
    ∀ p, AecProcessor.new σ aec0 sample_rate fs fl = Except.ok p →
      p.max_ref_size = fl * 4 ∧ p.ref_buffer = [] ∧ p.frame_size = fs ∧
        p.total_frames = 0 ∧ p.processing_time_us = 0 ∧ p.aec = aec0 := by
  constructor
  · constructor
    · rintro ⟨p, hp⟩
      have h := new_ok_fields σ aec0 sample_rate fs fl p hp
      omega
    · intro h
      refine ⟨{ aec := aec0, frame_size := fs, ref_buffer := [],
                max_ref_size := fl * 4, total_frames := 0,
                processing_time_us := 0 }, ?_⟩
      unfold AecProcessor.new
      rw [if_neg (by omega), if_neg (by omega)]
  · intro p hp
    have h := (new_ok_fields σ aec0 sample_rate fs fl p hp).1
    subst h
    simp

/-- Witness for C5: `create(16000, 256, 256)` succeeds with capacity 1024 and
zeroed metrics, while the iff characterizes the two failing calls of the spec
(`frame_size = 0` and `filter_length = 32`). -/
theorem new_validates_config_witness :
    ((∃ p, AecProcessor.new Unit () 16000 0 256 = Except.ok p) ↔
      (1 ≤ 0 ∧ 0 ≤ 16384 ∧ 64 ≤ 256 ∧ 256 ≤ 2048)) ∧
    ((∃ p, AecProcessor.new Unit () 16000 256 32 = Except.ok p) ↔
      (1 ≤ 256 ∧ 256 ≤ 16384 ∧ 64 ≤ 32 ∧ 32 ≤ 2048)) ∧
    ((∃ p, AecProcessor.new Unit () 16000 256 256 = Except.ok p) ↔
      (1 ≤ 256 ∧ 256 ≤ 16384 ∧ 64 ≤ 256 ∧ 256 ≤ 2048)) ∧
    ({ aec := (), frame_size := 256, ref_buffer := [], max_ref_size := 1024,
       total_frames := 0, processing_time_us := 0 : AecProcessor Unit }.max_ref_size
        = 256 * 4 ∧
      ({ aec := (), frame_size := 256, ref_buffer := [], max_ref_size := 1024,
         total_frames := 0, processing_time_us := 0 : AecProcessor Unit }).ref_buffer = [] ∧
      ({ aec := (), frame_size := 256, ref_buffer := [], max_ref_size := 1024,
         total_frames := 0, processing_time_us := 0 : AecProcessor Unit }).frame_size = 256 ∧
      ({ aec := (), frame_size := 256, ref_buffer := [], max_ref_size := 1024,
         total_frames := 0, processing_time_us := 0 : AecProcessor Unit }).total_frames = 0 ∧
      ({ aec := (), frame_size := 256, ref_buffer := [], max_ref_size := 1024,
         total_frames := 0, processing_time_us := 0 : AecProcessor Unit }).processing_time_us = 0 ∧
      ({ aec := (), frame_size := 256, ref_buffer := [], max_ref_size := 1024,
         total_frames := 0, processing_time_us := 0 : AecProcessor Unit }).aec = ()) :=
  ⟨(new_validates_config Unit () 16000 0 256).1,
    (new_validates_config Unit () 16000 256 32).1,
    (new_validates_config Unit () 16000 256 256).1,
    (new_validates_config Unit () 16000 256 256).2 _ rfl⟩

/-- One mutating call keeps the reference buffer within `max_ref_size` (given
it was within before) and never changes `max_ref_size` itself. -/
theorem runOp_ref_bound (p : AecProcessor σ) (op : AecOp σ)
    (h : p.ref_buffer.length ≤ p.max_ref_size) :
    (runOp p op).ref_buffer.length ≤ (runOp p op).max_ref_size ∧
      (runOp p op).max_ref_size = p.max_ref_size := by
  cases op with
  | feed samples =>
    simp only [runOp, AecProcessor.feed_reference]
    split
    · simp only [List.length_drop, and_true]
      omega
    · simp only [and_true]
      omega
  | proc cancel e input =>
    simp only [runOp, AecProcessor.process, refDrain]
    split
    · simp only [List.length_drop, and_true]
      omega
    · simp only [and_true]
      omega
  | reset =>
    simp [runOp, AecProcessor.reset]

/-- The buffer bound survives any sequence of mutating calls, and the
capacity field is constant along the way. -/
theorem runOps_ref_bound (ops : List (AecOp σ)) :
    ∀ p : AecProcessor σ, p.ref_buffer.length ≤ p.max_ref_size →
      (runOps p ops).ref_buffer.length ≤ (runOps p ops).max_ref_size ∧
        (runOps p ops).max_ref_size = p.max_ref_size := by
  induction ops with
  | nil =>
    intro p h
    exact ⟨h, rfl⟩
  | cons op ops ih =>
    intro p h
    have h1 := runOp_ref_bound p op h
    have h2 := ih (runOp p op) h1.1
    simp only [runOps, List.foldl_cons] at h2 ⊢
    exact ⟨h2.1, h2.2.trans h1.2⟩

/-- C3: starting from any successfully created session, after any sequence of
mutating calls (`feedReference`, `process`, `reset`) the reference buffer
holds at most `filter_length * 4` samples; in particular the bound holds
immediately after every `feed` of the sequence (that state is `runOps` of a
prefix). -/
theorem ref_buffer_bound_invariant (σ : Type) (aec0 : σ)
    (sample_rate fs fl : Nat) (p0 : AecProcessor σ)
    (hnew : AecProcessor.new σ aec0 sample_rate fs fl = Except.ok p0)
    (ops : List (AecOp σ)) :
    (runOps p0 ops).ref_buffer.length ≤ fl * 4 := by
  have hf := (new_ok_fields σ aec0 sample_rate fs fl p0 hnew).1
  have h0 : p0.ref_buffer.length ≤ p0.max_ref_size := by
    subst hf
    simp
  have h := runOps_ref_bound ops p0 h0
  have hmax : p0.max_ref_size = fl * 4 := by
    subst hf
    rfl
  omega

/-- Witness for C3: a freshly created session (filter length 64), after a
feed of 300 samples, a process call and another feed, holds at most 256
reference samples. -/
theorem ref_buffer_bound_invariant_witness :
    (runOps demoEmpty
        [AecOp.feed (List.replicate 300 1),
          AecOp.proc (zeroCancel 2) 17 [5, 6, 7],
          AecOp.feed (List.replicate 100 2)]).ref_buffer.length ≤ 64 * 4 :=
  ref_buffer_bound_invariant Unit () 16000 2 64 demoEmpty rfl
    [AecOp.feed (List.replicate 300 1),
      AecOp.proc (zeroCancel 2) 17 [5, 6, 7],
      AecOp.feed (List.replicate 100 2)]

/-- A sequence of `process` calls adds exactly one to `total_frames` per call
and never decreases `processing_time_us`. -/
theorem runProcs_metrics (calls : List (Canceller σ × Nat × List Int)) :
    ∀ p : AecProcessor σ,
      (runProcs p calls).total_frames = p.total_frames + calls.length ∧
        p.processing_time_us ≤ (runProcs p calls).processing_time_us := by
  induction calls with
  | nil =>
    intro p
    simp [runProcs]
  | cons c cs ih =>
    intro p
    have h := ih (AecProcessor.process c.1 c.2.1 p c.2.2).1
    simp only [runProcs, List.foldl_cons, List.length_cons] at h ⊢
    refine ⟨?_, ?_⟩
    · rw [h.1]
      simp only [AecProcessor.process]
      omega
    · refine le_trans ?_ h.2
      simp only [AecProcessor.process]
      omega

/-- C9: `total_frames` grows by exactly one per `process` call — after `k`
calls it equals its old value plus `k`, whatever the inputs (empty included);
`processing_time_us` never decreases across `process` calls; and `reset`
zeroes both counters. -/
theorem metrics_counters (p : AecProcessor σ)
    (calls : List (Canceller σ × Nat × List Int)) (cancel : Canceller σ)
    (elapsed_us : Nat) (input : List Int) :
    (runProcs p calls).total_frames = p.total_frames + calls.length ∧
      p.processing_time_us
        ≤ (AecProcessor.process cancel elapsed_us p input).1.processing_time_us ∧
      p.processing_time_us ≤ (runProcs p calls).processing_time_us ∧
      (p.reset).total_frames = 0 ∧ (p.reset).processing_time_us = 0 := by
  refine ⟨(runProcs_metrics calls p).1, ?_, (runProcs_metrics calls p).2, rfl, rfl⟩
  simp only [AecProcessor.process]
  omega

/-- C10: a `process` call whose input is longer than the buffered reference
consumes nothing — the reference buffer (contents and length) is exactly what
it was before the call. -/
theorem process_insufficient_ref_keeps_buffer (cancel : Canceller σ)
    (elapsed_us : Nat) (p : AecProcessor σ) (input : List Int)
    (h : p.ref_buffer.length < input.length) :
    (AecProcessor.process cancel elapsed_us p input).1.ref_buffer
      = p.ref_buffer := by
  simp only [AecProcessor.process, refDrain_of_lt p.ref_buffer input.length h]

/-- Witness for C10: processing 7 samples against 6 buffered reference
samples leaves the buffer untouched. -/
theorem process_insufficient_ref_keeps_buffer_witness :
    (AecProcessor.process (zeroCancel 2) 5 demoFilled
        (List.replicate 7 0)).1.ref_buffer = demoFilled.ref_buffer :=
  process_insufficient_ref_keeps_buffer (zeroCancel 2) 5 demoFilled
    (List.replicate 7 0) (by simp [demoFilled])

/-- The output of `AecProcessor.process` is the output of the frame loop run
on the input and the drained (or zero-filled) reference. -/
theorem process_snd_eq (cancel : Canceller σ) (elapsed_us : Nat)
    (p : AecProcessor σ) (input : List Int) :
    (AecProcessor.process cancel elapsed_us p input).2
      = (processChunks cancel p.frame_size p.aec input
          (refDrain p.ref_buffer input.length).1).2 := rfl

/-- The reference buffer after `AecProcessor.process` is the second component
of the drain step. -/
theorem process_fst_ref (cancel : Canceller σ) (elapsed_us : Nat)
    (p : AecProcessor σ) (input : List Int) :
    (AecProcessor.process cancel elapsed_us p input).1.ref_buffer
      = (refDrain p.ref_buffer input.length).2 := rfl

/-- C1: for an input of length `L`, `process` returns exactly `L` samples;
everything from offset `frame_size * (L / frame_size)` on — the trailing
remainder of length `L mod frame_size` — is the input, copied verbatim and
never shown to the canceller; and for every `k` with a full window remaining
(`frame_size * (k+1) ≤ L`), output window `k` is precisely the canceller
output on (near-end window `k`, reference window `k`), invoked at the
canceller state reached after the previous `k` windows. -/
theorem process_frame_alignment (cancel : Canceller σ) (elapsed_us : Nat)
    (p : AecProcessor σ) (input : List Int) (k : Nat)
    (hf : 0 < p.frame_size)
    (hlen : ∀ s a b, ((cancel s a b).2).length = p.frame_size) :
    ((AecProcessor.process cancel elapsed_us p input).2).length = input.length ∧
    ((AecProcessor.process cancel elapsed_us p input).2).drop
        (p.frame_size * (input.length / p.frame_size))
      = input.drop (p.frame_size * (input.length / p.frame_size)) ∧
    (p.frame_size * (k + 1) ≤ input.length →
      (((AecProcessor.process cancel elapsed_us p input).2).drop
          (p.frame_size * k)).take p.frame_size
        = (cancel
            (stateAfter cancel p.frame_size p.aec input
              (refDrain p.ref_buffer input.length).1 k)
            ((input.drop (p.frame_size * k)).take p.frame_size)
            (((refDrain p.ref_buffer input.length).1.drop
                (p.frame_size * k)).take p.frame_size)).2) := by
  rw [process_snd_eq]
  exact ⟨processChunks_length cancel hf hlen p.aec input
      (refDrain p.ref_buffer input.length).1,
    processChunks_remainder_aux cancel hf hlen input.length p.aec input
      (refDrain p.ref_buffer input.length).1 le_rfl,
    fun hk => processChunks_window cancel hf hlen k p.aec input
      (refDrain p.ref_buffer input.length).1 hk⟩

/-- Witness for C1: a 5-sample input at frame size 2 — the two full windows
go through the canceller (window `k = 1` shown) and the 5th sample is copied
verbatim; output length is 5. -/
theorem process_frame_alignment_witness :
    ((AecProcessor.process (zeroCancel 2) 9 demoFilled
        [10, 20, 30, 40, 50]).2).length = ([10, 20, 30, 40, 50] : List Int).length ∧
    ((AecProcessor.process (zeroCancel 2) 9 demoFilled [10, 20, 30, 40, 50]).2).drop
        (demoFilled.frame_size
          * (([10, 20, 30, 40, 50] : List Int).length / demoFilled.frame_size))
      = ([10, 20, 30, 40, 50] : List Int).drop
          (demoFilled.frame_size
            * (([10, 20, 30, 40, 50] : List Int).length / demoFilled.frame_size)) ∧
    (demoFilled.frame_size * (1 + 1) ≤ ([10, 20, 30, 40, 50] : List Int).length →
      (((AecProcessor.process (zeroCancel 2) 9 demoFilled
            [10, 20, 30, 40, 50]).2).drop
          (demoFilled.frame_size * 1)).take demoFilled.frame_size
        = (zeroCancel 2
            (stateAfter (zeroCancel 2) demoFilled.frame_size demoFilled.aec
              [10, 20, 30, 40, 50]
              (refDrain demoFilled.ref_buffer
                ([10, 20, 30, 40, 50] : List Int).length).1 1)
            ((([10, 20, 30, 40, 50] : List Int).drop
                (demoFilled.frame_size * 1)).take demoFilled.frame_size)
            (((refDrain demoFilled.ref_buffer
                  ([10, 20, 30, 40, 50] : List Int).length).1.drop
                (demoFilled.frame_size * 1)).take demoFilled.frame_size)).2) :=
  process_frame_alignment (zeroCancel 2) 9 demoFilled [10, 20, 30, 40, 50] 1
    (by decide) (fun _ _ _ => rfl)

/-- C4: when the buffer holds at least `L` samples, the reference used by
`process` is exactly the `L` oldest buffered samples, in order, and the
buffer shrinks by `L` (the remaining samples being the rest, in order); when
it holds fewer, the reference is `L` zeros. In both cases the call is total
and returns exactly `L` samples — in particular with an empty buffer. -/
theorem process_reference_drain (cancel : Canceller σ) (elapsed_us : Nat)
    (p : AecProcessor σ) (input : List Int)
    (hf : 0 < p.frame_size)
    (hlen : ∀ s a b, ((cancel s a b).2).length = p.frame_size) :
    (input.length ≤ p.ref_buffer.length →
      (refDrain p.ref_buffer input.length).1 = p.ref_buffer.take input.length ∧
        (AecProcessor.process cancel elapsed_us p input).1.ref_buffer
          = p.ref_buffer.drop input.length ∧
        (AecProcessor.process cancel elapsed_us p input).1.ref_buffer.length
          = p.ref_buffer.length - input.length) ∧
    (p.ref_buffer.length < input.length →
      (refDrain p.ref_buffer input.length).1 = List.replicate input.length 0) ∧
    ((AecProcessor.process cancel elapsed_us p input).2).length
      = input.length := by
  refine ⟨?_, ?_, ?_⟩
  · intro h
    rw [process_fst_ref, refDrain_of_le p.ref_buffer input.length h]
    simp
  · intro h
    rw [refDrain_of_lt p.ref_buffer input.length h]
  · rw [process_snd_eq]
    exact processChunks_length cancel hf hlen p.aec input
      (refDrain p.ref_buffer input.length).1

/-- Witness for C4: with 6 buffered samples and a 4-sample input, the
reference used is the 4 oldest samples and the buffer shrinks to 2; with an
empty buffer and a 3-sample input, the call still returns 3 samples. -/
theorem process_reference_drain_witness :
    ((refDrain demoFilled.ref_buffer ([10, 20, 30, 40] : List Int).length).1
        = demoFilled.ref_buffer.take ([10, 20, 30, 40] : List Int).length ∧
      (AecProcessor.process (zeroCancel 2) 3 demoFilled
          [10, 20, 30, 40]).1.ref_buffer
        = demoFilled.ref_buffer.drop ([10, 20, 30, 40] : List Int).length ∧
      (AecProcessor.process (zeroCancel 2) 3 demoFilled
          [10, 20, 30, 40]).1.ref_buffer.length
        = demoFilled.ref_buffer.length - ([10, 20, 30, 40] : List Int).length) ∧
    ((AecProcessor.process (zeroCancel 2) 3 demoFilled [10, 20, 30, 40]).2).length
      = ([10, 20, 30, 40] : List Int).length ∧
    ((refDrain demoEmpty.ref_buffer ([7, 8, 9] : List Int).length).1
        = List.replicate ([7, 8, 9] : List Int).length 0 ∧
      ((AecProcessor.process (zeroCancel 2) 3 demoEmpty [7, 8, 9]).2).length
        = ([7, 8, 9] : List Int).length) :=
  ⟨(process_reference_drain (zeroCancel 2) 3 demoFilled [10, 20, 30, 40]
        (by decide) (fun _ _ _ => rfl)).1 (by decide),
    (process_reference_drain (zeroCancel 2) 3 demoFilled [10, 20, 30, 40]
        (by decide) (fun _ _ _ => rfl)).2.2,
    (process_reference_drain (zeroCancel 2) 3 demoEmpty [7, 8, 9]
        (by decide) (fun _ _ _ => rfl)).2.1 (by decide),
    (process_reference_drain (zeroCancel 2) 3 demoEmpty [7, 8, 9]
        (by decide) (fun _ _ _ => rfl)).2.2⟩

/-- The host-facing `process` emits two bytes per decoded sample: its output
byte length is `2 * (input byte length / 2)` — the input length rounded down
to even. -/
theorem hostProcess_length_aux (cancel : Canceller σ) (elapsed_us : Nat)
    (p : AecProcessor σ) (bytes : List Nat)
    (hf : 0 < p.frame_size)
    (hlen : ∀ s a b, ((cancel s a b).2).length = p.frame_size) :
    ((hostProcess cancel elapsed_us p bytes).2).length
      = 2 * (bytes.length / 2) := by
  have h1 : (hostProcess cancel elapsed_us p bytes).2
      = samplesToBytes ((AecProcessor.process cancel elapsed_us p
          (bytesToSamples bytes)).2) := rfl
  rw [h1, samplesToBytes_length, process_snd_eq,
    processChunks_length cancel hf hlen _ _ _, bytesToSamples_length]

/-- C7: on an even-length byte buffer of `2n` bytes, the host-facing
`process` returns exactly `2n` bytes. -/
theorem hostProcess_even_length (cancel : Canceller σ) (elapsed_us : Nat)
    (p : AecProcessor σ) (bytes : List Nat) (n : Nat)
    (hf : 0 < p.frame_size)
    (hlen : ∀ s a b, ((cancel s a b).2).length = p.frame_size)
    (hbytes : bytes.length = 2 * n) :
    ((hostProcess cancel elapsed_us p bytes).2).length = bytes.length := by
  rw [hostProcess_length_aux cancel elapsed_us p bytes hf hlen, hbytes]
  omega

/-- Witness for C7: a 4-byte buffer comes back as 4 bytes. -/
theorem hostProcess_even_length_witness :
    ((hostProcess (zeroCancel 2) 11 demoFilled [1, 2, 3, 4]).2).length
      = ([1, 2, 3, 4] : List Nat).length :=
  hostProcess_even_length (zeroCancel 2) 11 demoFilled [1, 2, 3, 4] 2
    (by decide) (fun _ _ _ => rfl) (by decide)

/-- A session state with a frame size larger than any test input, used to
exercise the pass-through path on concrete inputs. -/
def demoBig : AecProcessor Unit :=
  { aec := ()
    frame_size := 16384
    ref_buffer := []
    max_ref_size := 8192
    total_frames := 0
    processing_time_us := 0 }

/-- Counterexample to C8: a 5-byte input to the host-facing `process` comes
back as 4 bytes, not 5 — the trailing odd byte is dropped by decoding, so the
output length is not identical to the input length. -/
theorem hostProcess_odd_length_cex :
    ¬ ((hostProcess (zeroCancel 16384) 0 demoBig [7, 0, 7, 0, 7]).2).length
        = ([7, 0, 7, 0, 7] : List Nat).length := by
  intro hcontra
  have hlt : (bytesToSamples [7, 0, 7, 0, 7]).length < 16384 := by decide
  have hout : (hostProcess (zeroCancel 16384) 0 demoBig [7, 0, 7, 0, 7]).2
      = samplesToBytes (bytesToSamples [7, 0, 7, 0, 7]) := by
    show samplesToBytes ((processChunks (zeroCancel 16384) 16384 ()
        (bytesToSamples [7, 0, 7, 0, 7])
        (refDrain [] (bytesToSamples [7, 0, 7, 0, 7]).length).1).2) = _
    rw [processChunks_of_lt (zeroCancel 16384) ()
      (refDrain [] (bytesToSamples [7, 0, 7, 0, 7]).length).1 hlt]
  rw [hout, samplesToBytes_length, bytesToSamples_length] at hcontra
  simp at hcontra

/-- C8 (amended): for every input byte buffer, the host-facing `process`
returns `2 * (input length / 2)` bytes — the input length rounded down to
even. For even-length inputs this is the input length; for odd-length inputs
it is one less, the trailing odd byte being dropped by decoding. -/
theorem hostProcess_length_floor (cancel : Canceller σ) (elapsed_us : Nat)
    (p : AecProcessor σ) (bytes : List Nat)
    (hf : 0 < p.frame_size)
    (hlen : ∀ s a b, ((cancel s a b).2).length = p.frame_size) :
    ((hostProcess cancel elapsed_us p bytes).2).length
      = 2 * (bytes.length / 2) :=
  hostProcess_length_aux cancel elapsed_us p bytes hf hlen

/-- Witness for the amended C8: a 5-byte buffer comes back as
`2 * (5 / 2) = 4` bytes. -/
theorem hostProcess_length_floor_witness :
    ((hostProcess (zeroCancel 2) 11 demoFilled [1, 2, 3, 4, 5]).2).length
      = 2 * (([1, 2, 3, 4, 5] : List Nat).length / 2) :=
  hostProcess_length_floor (zeroCancel 2) 11 demoFilled [1, 2, 3, 4, 5]
    (by decide) (fun _ _ _ => rfl)

end Kakarot
